import Mathlib

/-!
Verification of the `lit-element` render lifecycle (`src/lit-element.ts`) and
the hot-replacement member migration (`src/hot-replace-callback.ts`),
shallowly embedded in Lean.

The first half models JavaScript own-property tables and the
`updateObjectMembers` / `hotReplaceCallback` migration routines.  The second
half models the per-instance render lifecycle state of `LitElement`
(`__renderComplete`, `__resolveRenderComplete`, `__isInvalid`, `__isChanging`,
`_root`) together with the microtask scheduling it relies on.
-/

/-- A JavaScript property descriptor: the unit read whole by
`Object.getOwnPropertyDescriptor` and written whole by
`Object.defineProperty` (value or accessor pair, writability, enumerability,
configurability). -/
structure Descriptor where
  configurable : Bool
  enumerable : Bool
  writable : Bool
  value : Option Int
  getter : Option Nat
  setter : Option Nat
deriving DecidableEq, Repr

/-- An object's own-property table: an association list from own property name
to descriptor, listed in `Object.getOwnPropertyNames` order. -/
abbrev JSObject := List (String × Descriptor)

/-- `Object.getOwnPropertyDescriptor(o, name)`. -/
def jsLookup : JSObject → String → Option Descriptor
  | [], _ => none
  | (k, d) :: rest, name => if k = name then some d else jsLookup rest name

/-- `Object.getOwnPropertyNames(o)`. -/
def jsNames (o : JSObject) : List String := o.map Prod.fst

/-- Raw own-property write: install `d` under `name`, dropping any previous
entry for `name`. -/
def jsSet (o : JSObject) (name : String) (d : Descriptor) : JSObject :=
  (name, d) :: o.filter (fun p => p.1 != name)

/-- `Object.defineProperty(o, name, d)`.  Redefining an existing own property
whose current descriptor is non-configurable throws a `TypeError` (ES
`ValidateAndApplyPropertyDescriptor`: a non-configurable current property
rejects any descriptor with `configurable: true`, and the migration source
only ever passes configurable descriptors); the error carries the unmodified
object, since the throw happens before any mutation. -/
def defineProperty (o : JSObject) (name : String) (d : Descriptor) :
    Except JSObject JSObject :=
  match jsLookup o name with
  | some cur => if cur.configurable then .ok (jsSet o name d) else .error o
  | none => .ok (jsSet o name d)

/-- Strict-mode `delete o[name]`: removes a configurable own property, throws
`TypeError` (modelled as `.error` with the unmodified object) on a
non-configurable one, and succeeds with no effect when `name` is absent. -/
def jsDelete (o : JSObject) (name : String) : Except JSObject JSObject :=
  match jsLookup o name with
  | some cur =>
    if cur.configurable then .ok (o.filter (fun p => p.1 != name)) else .error o
  | none => .ok o

/-- The first loop of `updateObjectMembers`: for each own property name of
`newClass` (the iteration list `l`), copy its descriptor onto `hmrClass`
whenever that descriptor is configurable.  A `defineProperty` throw is not
caught and aborts the whole migration. -/
def copyMembers (hmrClass newClass : JSObject) : List String → Except JSObject JSObject
  | [] => .ok hmrClass
  | prop :: rest =>
    match jsLookup newClass prop with
    | some descriptor =>
      if descriptor.configurable then
        match defineProperty hmrClass prop descriptor with
        | .ok o2 => copyMembers o2 newClass rest
        | .error o2 => .error o2
      else copyMembers hmrClass newClass rest
    | none => copyMembers hmrClass newClass rest

/-- The second loop of `updateObjectMembers`: for each snapshotted own name of
the original target (the iteration list `l`) that is absent from the
source's names `newProperties`, attempt `delete`, swallowing any failure
(the `try {} catch {}` in the source). -/
def deleteMembers (hmrClass : JSObject) (newProperties : List String) :
    List String → JSObject
  | [] => hmrClass
  | prop :: rest =>
    if prop ∈ newProperties then deleteMembers hmrClass newProperties rest
    else
      match jsDelete hmrClass prop with
      | .ok o2 => deleteMembers o2 newProperties rest
      | .error o2 => deleteMembers o2 newProperties rest

/-- `updateObjectMembers(hmrClass, newClass)` from `src/hot-replace-callback.ts`:
snapshot the target's own names, copy every configurable own descriptor of
`newClass` onto `hmrClass`, then delete every snapshotted name absent from
`newClass`, swallowing deletion failures.  A `defineProperty` failure is not
caught and aborts the migration with the partially updated object. -/
def updateObjectMembers (hmrClass newClass : JSObject) : Except JSObject JSObject :=
  let currentProperties := jsNames hmrClass
  match copyMembers hmrClass newClass (jsNames newClass) with
  | .error o => .error o
  | .ok o => .ok (deleteMembers o (jsNames newClass) currentProperties)

/-! ### Lookup lemmas for the object model -/

theorem jsLookup_filter_self (o : JSObject) (name : String) :
    jsLookup (o.filter (fun p => p.1 != name)) name = none := by
  induction o with
  | nil => rfl
  | cons p rest ih =>
    rw [List.filter_cons]
    by_cases h : p.1 = name
    · simp [h, ih]
    · simp [bne_iff_ne, h, jsLookup, ih]

theorem jsLookup_filter_ne (o : JSObject) (name name' : String) (h : name ≠ name') :
    jsLookup (o.filter (fun p => p.1 != name)) name' = jsLookup o name' := by
  induction o with
  | nil => rfl
  | cons p rest ih =>
    rw [List.filter_cons]
    by_cases hp : p.1 = name
    · have hne : ¬p.1 = name' := fun he => h (hp ▸ he)
      simp [hp, jsLookup, hne, h, ih]
    · simp [bne_iff_ne, hp, jsLookup, ih]

theorem jsLookup_jsSet_self (o : JSObject) (name : String) (d : Descriptor) :
    jsLookup (jsSet o name d) name = some d := by
  simp [jsSet, jsLookup]

theorem jsLookup_jsSet_ne (o : JSObject) (name name' : String) (d : Descriptor)
    (h : name ≠ name') : jsLookup (jsSet o name d) name' = jsLookup o name' := by
  simp [jsSet, jsLookup, h, jsLookup_filter_ne o name name' h]

theorem jsLookup_eq_none_iff (o : JSObject) (name : String) :
    jsLookup o name = none ↔ name ∉ jsNames o := by
  induction o with
  | nil => simp [jsLookup, jsNames]
  | cons p rest ih =>
    by_cases h : p.1 = name
    · simp [jsLookup, h, jsNames]
    · simp only [jsLookup, h, if_false, jsNames, List.map_cons, List.mem_cons, ih]
      constructor
      · intro hr hor
        rcases hor with he | hm
        · exact h he.symm
        · exact hr hm
      · intro hni hm
        exact hni (Or.inr hm)

theorem jsLookup_mem (o : JSObject) (name : String) (d : Descriptor)
    (h : jsLookup o name = some d) : (name, d) ∈ o := by
  induction o with
  | nil => simp [jsLookup] at h
  | cons p rest ih =>
    by_cases hp : p.1 = name
    · obtain ⟨k, v⟩ := p
      simp only [jsLookup] at h
      simp only at hp
      rw [if_pos hp] at h
      subst hp
      obtain rfl : v = d := Option.some.injEq _ _ ▸ h
      exact List.mem_cons_self _ _
    · simp only [jsLookup, if_neg hp] at h
      exact List.mem_cons_of_mem _ (ih h)

/-! ### Characterization of the migration phases -/

/-- Whether `name` is an own property of `s` with a configurable descriptor
(the condition under which the copy phase writes it). -/
def confSource (s : JSObject) (name : String) : Bool :=
  match jsLookup s name with
  | some d => d.configurable
  | none => false

theorem copyMembers_lookup (s : JSObject) :
    ∀ (l : List String) (t t' : JSObject), copyMembers t s l = Except.ok t' →
      ∀ name, jsLookup t' name =
        if confSource s name = true ∧ name ∈ l then jsLookup s name
        else jsLookup t name := by
  intro l
  induction l with
  | nil =>
    intro t t' h name
    simp only [copyMembers, Except.ok.injEq] at h
    simp [h]
  | cons p rest ih =>
    intro t t' h name
    have step :
        ∀ t2 : JSObject, copyMembers t2 s rest = Except.ok t' →
          (∀ n, n ≠ p → jsLookup t2 n = jsLookup t n) →
          (confSource s p = true → jsLookup t2 p = jsLookup s p) →
          (confSource s p = false → jsLookup t2 p = jsLookup t p) →
          jsLookup t' name =
            if confSource s name = true ∧ name ∈ p :: rest then jsLookup s name
            else jsLookup t name := by
      intro t2 hrec hne hcp hncp
      have hrest := ih t2 t' hrec name
      by_cases hnp : name = p
      · subst hnp
        by_cases hcs : confSource s name = true
        · rw [if_pos ⟨hcs, List.mem_cons_self name rest⟩]
          by_cases hr : name ∈ rest
          · rw [if_pos ⟨hcs, hr⟩] at hrest
            exact hrest
          · rw [if_neg (fun hh => hr hh.2)] at hrest
            rw [hrest, hcp hcs]
        · have hcs' : confSource s name = false := by simpa using hcs
          rw [if_neg (fun hh => hcs hh.1)]
          rw [if_neg (fun hh => hcs hh.1)] at hrest
          rw [hrest, hncp hcs']
      · have hiff : (confSource s name = true ∧ name ∈ p :: rest) ↔
            (confSource s name = true ∧ name ∈ rest) := by
          simp [List.mem_cons, hnp]
        by_cases hq : confSource s name = true ∧ name ∈ rest
        · rw [if_pos (hiff.mpr hq)]
          rw [if_pos hq] at hrest
          exact hrest
        · rw [if_neg (fun hh => hq (hiff.mp hh))]
          rw [if_neg hq] at hrest
          rw [hrest, hne name hnp]
    cases hs : jsLookup s p with
    | none =>
      simp only [copyMembers, hs] at h
      exact step t h (fun _ _ => rfl) (by simp [confSource, hs]) (fun _ => rfl)
    | some d =>
      by_cases hc : d.configurable = true
      · simp only [copyMembers, hs, hc, if_true] at h
        have hdp : defineProperty t p d = Except.ok (jsSet t p d) ∨
            defineProperty t p d = Except.error t := by
          cases ht : jsLookup t p with
          | none => left; simp [defineProperty, ht]
          | some cur =>
            cases hcc : cur.configurable with
            | true => left; simp [defineProperty, ht, hcc]
            | false => right; simp [defineProperty, ht, hcc]
        rcases hdp with hdp | hdp
        · rw [hdp] at h
          refine step (jsSet t p d) h
            (fun n hn => jsLookup_jsSet_ne t p n d (fun he => hn he.symm)) ?_ ?_
          · intro _
            rw [jsLookup_jsSet_self, hs]
          · intro hcf
            simp [confSource, hs, hc] at hcf
        · rw [hdp] at h
          cases h
      · simp only [copyMembers, hs] at h
        rw [if_neg hc] at h
        have hcf : confSource s p = false := by
          simp only [confSource, hs]
          simpa using hc
        exact step t h (fun _ _ => rfl) (fun hcp => by rw [hcp] at hcf; cases hcf)
          (fun _ => rfl)

theorem deleteMembers_lookup (sn : List String) :
    ∀ (l : List String) (o : JSObject) (name : String),
      jsLookup (deleteMembers o sn l) name =
        if name ∈ l ∧ name ∉ sn then
          match jsLookup o name with
          | some c => if c.configurable = true then none else some c
          | none => none
        else jsLookup o name := by
  intro l
  induction l with
  | nil =>
    intro o name
    simp [deleteMembers]
  | cons p rest ih =>
    intro o name
    have step :
        ∀ o2 : JSObject,
          (∀ n, n ≠ p → jsLookup o2 n = jsLookup o n) →
          (jsLookup o2 p = match jsLookup o p with
            | some c => if c.configurable = true then none else some c
            | none => none) →
          (p ∉ sn) →
          deleteMembers o sn (p :: rest) = deleteMembers o2 sn rest →
          jsLookup (deleteMembers o sn (p :: rest)) name =
            if name ∈ p :: rest ∧ name ∉ sn then
              match jsLookup o name with
              | some c => if c.configurable = true then none else some c
              | none => none
            else jsLookup o name := by
      intro o2 hne hp hpsn hunf
      rw [hunf, ih o2 name]
      by_cases hnp : name = p
      · subst hnp
        by_cases hr : name ∈ rest
        · rw [if_pos ⟨hr, hpsn⟩, if_pos ⟨List.mem_cons_self name rest, hpsn⟩, hp]
          cases hm : jsLookup o name with
          | none => rfl
          | some c =>
            cases hcc : c.configurable with
            | true => simp [hcc]
            | false => simp [hcc]
        · rw [if_neg (fun hh => hr hh.1),
            if_pos ⟨List.mem_cons_self name rest, hpsn⟩]
          exact hp
      · have hiff : (name ∈ p :: rest ∧ name ∉ sn) ↔ (name ∈ rest ∧ name ∉ sn) := by
          simp [List.mem_cons, hnp]
        by_cases hq : name ∈ rest ∧ name ∉ sn
        · rw [if_pos hq, if_pos (hiff.mpr hq)]
          rw [hne name hnp]
        · rw [if_neg hq, if_neg (fun hh => hq (hiff.mp hh))]
          exact hne name hnp
    by_cases hpsn : p ∈ sn
    · simp only [deleteMembers, hpsn, if_true]
      rw [ih o name]
      have hiff : (name ∈ p :: rest ∧ name ∉ sn) ↔ (name ∈ rest ∧ name ∉ sn) := by
        constructor
        · rintro ⟨hm, hn⟩
          rcases List.mem_cons.mp hm with he | hm'
          · exact absurd (he ▸ hpsn) hn
          · exact ⟨hm', hn⟩
        · rintro ⟨hm, hn⟩
          exact ⟨List.mem_cons_of_mem _ hm, hn⟩
      by_cases hq : name ∈ rest ∧ name ∉ sn
      · rw [if_pos hq, if_pos (hiff.mpr hq)]
      · rw [if_neg hq, if_neg (fun hh => hq (hiff.mp hh))]
    · cases hd : jsLookup o p with
      | none =>
        refine step o (fun _ _ => rfl) (by rw [hd]) hpsn ?_
        simp only [deleteMembers, hpsn, if_false, jsDelete, hd]
      | some c =>
        cases hcc : c.configurable with
        | true =>
          refine step (o.filter (fun q => q.1 != p))
            (fun n hn => jsLookup_filter_ne o p n (fun he => hn he.symm)) ?_ hpsn ?_
          · rw [jsLookup_filter_self, hd]
            simp [hcc]
          · simp only [deleteMembers, hpsn, if_false, jsDelete, hd, hcc, if_true]
        | false =>
          refine step o (fun _ _ => rfl) ?_ hpsn ?_
          · rw [hd]
            simp [hcc]
          · simp only [deleteMembers, hpsn, if_false, jsDelete, hd, hcc]
            rw [if_neg (by simp)]

/-- The per-name result of a completed migration: configurable source members
win, non-configurable source members leave the target entry alone, and
target-only members are removed exactly when they are configurable. -/
def migrated (t s : JSObject) (name : String) : Option Descriptor :=
  match jsLookup s name with
  | some d => if d.configurable then some d else jsLookup t name
  | none =>
    match jsLookup t name with
    | some c => if c.configurable then none else some c
    | none => none

theorem updateObjectMembers_lookup (t s t' : JSObject)
    (h : updateObjectMembers t s = Except.ok t') (name : String) :
    jsLookup t' name = migrated t s name := by
  simp only [updateObjectMembers] at h
  cases hcp : copyMembers t s (jsNames s) with
  | error o => rw [hcp] at h; cases h
  | ok o =>
    rw [hcp] at h
    simp only [Except.ok.injEq] at h
    subst h
    have hco := copyMembers_lookup s (jsNames s) t o hcp name
    rw [deleteMembers_lookup]
    cases hs : jsLookup s name with
    | some d =>
      have hmem : name ∈ jsNames s := by
        by_contra hn
        rw [← jsLookup_eq_none_iff] at hn
        rw [hn] at hs
        cases hs
      rw [if_neg (fun hh => hh.2 hmem)]
      simp only [migrated, hs]
      cases hc : d.configurable with
      | true =>
        have hcst : confSource s name = true := by simp [confSource, hs, hc]
        rw [if_pos ⟨hcst, hmem⟩] at hco
        rw [hco, hs, if_pos rfl]
      | false =>
        have hcsf : confSource s name = false := by simp [confSource, hs, hc]
        rw [if_neg (fun hh => by rw [hh.1] at hcsf; cases hcsf)] at hco
        rw [hco, if_neg (by simp)]
    | none =>
      have hnmem : name ∉ jsNames s := (jsLookup_eq_none_iff s name).mp hs
      have hcsf : confSource s name = false := by simp [confSource, hs]
      rw [if_neg (fun hh => by rw [hh.1] at hcsf; cases hcsf)] at hco
      simp only [migrated, hs]
      by_cases hmt : name ∈ jsNames t
      · rw [if_pos ⟨hmt, hnmem⟩, hco]
      · have hlt : jsLookup t name = none := (jsLookup_eq_none_iff t name).mpr hmt
        rw [if_neg (fun hh => hmt hh.1), hco, hlt]

/-! ### Success of the migration in the absence of collisions -/

/-- No configurable own property of the source shares its name with a
non-configurable own property of the target (the condition under which the
copy loop's `Object.defineProperty` calls cannot throw). -/
def noCollision (t s : JSObject) : Prop :=
  ∀ name ds dt, jsLookup s name = some ds → ds.configurable = true →
    jsLookup t name = some dt → dt.configurable = true

/-- Executable check for `noCollision`. -/
def noCollisionB (t s : JSObject) : Bool :=
  s.all fun p =>
    !p.2.configurable ||
      (match jsLookup t p.1 with
       | some dt => dt.configurable
       | none => true)

theorem noCollision_of_noCollisionB (t s : JSObject) (h : noCollisionB t s = true) :
    noCollision t s := by
  intro name ds dt hs hds ht
  have hmem := jsLookup_mem s name ds hs
  have := (List.all_eq_true.mp h) _ hmem
  simp only [hds, Bool.not_true, Bool.false_or, ht] at this
  exact this

theorem copyMembers_ok (s : JSObject) :
    ∀ (l : List String) (t : JSObject), noCollision t s →
      ∃ t', copyMembers t s l = Except.ok t' := by
  intro l
  induction l with
  | nil =>
    intro t _
    exact ⟨t, rfl⟩
  | cons p rest ih =>
    intro t hnc
    cases hs : jsLookup s p with
    | none =>
      obtain ⟨t', ht'⟩ := ih t hnc
      exact ⟨t', by simpa [copyMembers, hs] using ht'⟩
    | some d =>
      by_cases hc : d.configurable = true
      · have hdef : defineProperty t p d = Except.ok (jsSet t p d) := by
          cases ht : jsLookup t p with
          | none => simp [defineProperty, ht]
          | some cur =>
            have := hnc p d cur hs hc ht
            simp [defineProperty, ht, this]
        have hnc2 : noCollision (jsSet t p d) s := by
          intro n ds dt hsn hds htn
          by_cases hn : p = n
          · subst hn
            rw [jsLookup_jsSet_self] at htn
            injection htn with he
            subst he
            exact hc
          · rw [jsLookup_jsSet_ne t p n d hn] at htn
            exact hnc n ds dt hsn hds htn
        obtain ⟨t', ht'⟩ := ih (jsSet t p d) hnc2
        refine ⟨t', ?_⟩
        simp [copyMembers, hs, hc, hdef, ht']
      · obtain ⟨t', ht'⟩ := ih t hnc
        refine ⟨t', ?_⟩
        simp only [copyMembers, hs]
        rw [if_neg hc]
        exact ht'

theorem updateObjectMembers_ok (t s : JSObject) (h : noCollision t s) :
    ∃ t', updateObjectMembers t s = Except.ok t' := by
  obtain ⟨o, ho⟩ := copyMembers_ok s (jsNames s) t h
  exact ⟨deleteMembers o (jsNames s) (jsNames t), by simp [updateObjectMembers, ho]⟩

/-! ### Claim C5 -/

/-- A non-configurable data descriptor used in concrete instances. -/
def descNonConf : Descriptor :=
  { configurable := false, enumerable := true, writable := true,
    value := some 1, getter := none, setter := none }

/-- A configurable data descriptor used in concrete instances. -/
def descConf : Descriptor :=
  { configurable := true, enumerable := true, writable := true,
    value := some 2, getter := none, setter := none }

/-- C5 is false as stated: when a configurable own property of the source
shares its name with a non-configurable own property of the target, the copy
loop's `Object.defineProperty` throws (uncaught), the migration aborts, and
the configurable source property is not installed on the target. -/
theorem c5_counterexample :
    updateObjectMembers [("a", descNonConf)] [("a", descConf)] =
      Except.error [("a", descNonConf)] ∧
    descConf.configurable = true ∧
    jsLookup [("a", descNonConf)] "a" ≠ some descConf := by
  refine ⟨rfl, rfl, ?_⟩
  decide

/-- C5 (amended): provided no configurable own property of `sourceObject`
collides with a non-configurable own property of `targetObject`,
`updateObjectMembers(targetObject, sourceObject)` completes, every own
property of `sourceObject` whose descriptor is configurable is present on the
result with that entire descriptor (overwriting any prior property of that
name), and every own property name of `targetObject` absent from
`sourceObject` has been delete-attempted: removed when its descriptor is
configurable, left unchanged when not (the deletion failure being swallowed),
so the operation never fails because of deletions. -/
theorem c5_migrate_members (t s : JSObject) (h : noCollisionB t s = true) :
    ∃ t', updateObjectMembers t s = Except.ok t' ∧
      (∀ name d, jsLookup s name = some d → d.configurable = true →
        jsLookup t' name = some d) ∧
      (∀ name c, jsLookup t name = some c → jsLookup s name = none →
        jsLookup t' name = if c.configurable then none else some c) := by
  obtain ⟨t', ht'⟩ := updateObjectMembers_ok t s (noCollision_of_noCollisionB t s h)
  refine ⟨t', ht', ?_, ?_⟩
  · intro name d hs hd
    rw [updateObjectMembers_lookup t s t' ht' name]
    simp [migrated, hs, hd]
  · intro name c hc hs
    rw [updateObjectMembers_lookup t s t' ht' name]
    simp [migrated, hs, hc]

theorem c5_witness :
    noCollisionB [("old", descConf), ("keep", descNonConf)]
        [("a", descConf), ("b", descNonConf)] = true ∧
    (∃ t', updateObjectMembers [("old", descConf), ("keep", descNonConf)]
        [("a", descConf), ("b", descNonConf)] = Except.ok t' ∧
      (∀ name d,
        jsLookup [("a", descConf), ("b", descNonConf)] name = some d →
        d.configurable = true → jsLookup t' name = some d) ∧
      (∀ name c,
        jsLookup [("old", descConf), ("keep", descNonConf)] name = some c →
        jsLookup [("a", descConf), ("b", descNonConf)] name = none →
        jsLookup t' name = if c.configurable then none else some c)) :=
  ⟨by decide, c5_migrate_members _ _ (by decide)⟩

/-! ### Claim C10 -/

/-- C10: a name that is an own property of the source is never deleted from
the target by `updateObjectMembers` — the deletion loop only visits
snapshotted target names absent from the source — so a name present on both
objects is at most overwritten (when its new descriptor is configurable) and
is kept with its old descriptor when the copy was skipped. -/
theorem c10_source_names_never_deleted (t s t' : JSObject) (d : Descriptor)
    (name : String) (h : updateObjectMembers t s = Except.ok t')
    (hd : jsLookup s name = some d) :
    jsLookup t' name = (if d.configurable then some d else jsLookup t name) ∧
    (jsLookup t name ≠ none → jsLookup t' name ≠ none) := by
  have hm := updateObjectMembers_lookup t s t' h name
  constructor
  · rw [hm]
    simp [migrated, hd]
  · intro ht
    rw [hm]
    simp only [migrated, hd]
    cases hc : d.configurable with
    | true => simp
    | false => simpa using ht

theorem c10_witness :
    updateObjectMembers [("m", descConf)] [("m", descNonConf)] =
      Except.ok [("m", descConf)] ∧
    jsLookup [("m", descNonConf)] "m" = some descNonConf ∧
    (jsLookup [("m", descConf)] "m" =
        (if descNonConf.configurable then some descNonConf
         else jsLookup [("m", descConf)] "m") ∧
      (jsLookup [("m", descConf)] "m" ≠ none →
        jsLookup [("m", descConf)] "m" ≠ none)) :=
  ⟨rfl, rfl,
    c10_source_names_never_deleted [("m", descConf)] [("m", descNonConf)]
      [("m", descConf)] descNonConf "m" rfl rfl⟩

/-! ### The static hot-replace callback and claim C8 -/

/-- A class as the migration sees it: its static own-property table and its
prototype's own-property table. -/
structure JSClass where
  statics : JSObject
  proto : JSObject
deriving DecidableEq, Repr

/-- The own-property descriptor recording that a class has been finalized
(an ordinary configurable static, so migration copies it like any other). -/
def finalizedMarker : Descriptor :=
  { configurable := true, enumerable := false, writable := true,
    value := some 1, getter := none, setter := none }

/-- Modelled from the spec: the reactive-properties mixin's static
`finalize()` — "static, idempotent one-time setup" — is external to src/; it
is modelled as installing a finalization-marker own static property when one
is not already present (the derived metadata it computes is opaque to member
migration). -/
def finalize (c : JSClass) : JSClass :=
  if (jsLookup c.statics "__finalized").isSome then c
  else { c with statics := jsSet c.statics "__finalized" finalizedMarker }

/-- The static `hotReplaceCallback` from `src/hot-replace-callback.ts`:
finalize the new class, migrate static members onto the old class, migrate
prototype members onto the old prototype, then re-finalize the old class.
A member-migration throw aborts the callback with the partially updated
class. -/
def hotReplaceCallbackStatic (oldClass newClass : JSClass) : Except JSClass JSClass :=
  match updateObjectMembers oldClass.statics (finalize newClass).statics with
  | .error st => .error { statics := st, proto := oldClass.proto }
  | .ok st =>
    match updateObjectMembers oldClass.proto (finalize newClass).proto with
    | .error pr => .error { statics := st, proto := pr }
    | .ok pr => .ok (finalize { statics := st, proto := pr })

theorem finalize_cases (c : JSClass) :
    (finalize c = c ∧ (jsLookup c.statics "__finalized").isSome = true) ∨
    (jsLookup c.statics "__finalized" = none ∧
      finalize c = { c with statics := jsSet c.statics "__finalized" finalizedMarker }) := by
  unfold finalize
  by_cases h : (jsLookup c.statics "__finalized").isSome = true
  · rw [if_pos h]
    exact Or.inl ⟨rfl, h⟩
  · rw [if_neg h]
    refine Or.inr ⟨?_, rfl⟩
    cases hx : jsLookup c.statics "__finalized" with
    | none => rfl
    | some d => rw [hx] at h; simp at h

theorem finalize_proto (c : JSClass) : (finalize c).proto = c.proto := by
  unfold finalize
  split <;> rfl

theorem finalize_statics_ne (c : JSClass) (name : String)
    (h : name ≠ "__finalized") :
    jsLookup (finalize c).statics name = jsLookup c.statics name := by
  rcases finalize_cases c with ⟨hfc, _⟩ | ⟨_, hfc⟩
  · rw [hfc]
  · rw [hfc]
    exact jsLookup_jsSet_ne c.statics "__finalized" name finalizedMarker
      (fun he => h he.symm)

theorem finalize_finalized_isSome (c : JSClass) :
    (jsLookup (finalize c).statics "__finalized").isSome = true := by
  rcases finalize_cases c with ⟨hfc, hi⟩ | ⟨_, hfc⟩
  · rw [hfc]; exact hi
  · rw [hfc]
    show (jsLookup (jsSet c.statics "__finalized" finalizedMarker) "__finalized").isSome = true
    rw [jsLookup_jsSet_self]
    rfl

/-- Re-running a migration over a table that already carries its outcome is
the identity on lookups: a post-state in which every configurable source
member is present verbatim and every source-absent name is either gone or
non-configurable migrates to itself. -/
theorem remigrate_eq (t2 s : JSObject)
    (H1 : ∀ name d, jsLookup s name = some d → d.configurable = true →
      jsLookup t2 name = some d)
    (H2 : ∀ name, jsLookup s name = none →
      jsLookup t2 name = none ∨
        ∃ c, jsLookup t2 name = some c ∧ c.configurable = false) :
    ∃ t2', updateObjectMembers t2 s = Except.ok t2' ∧
      ∀ name, jsLookup t2' name = jsLookup t2 name := by
  have hnc : noCollision t2 s := by
    intro name ds dt hs hds ht
    rw [H1 name ds hs hds] at ht
    injection ht with he
    subst he
    exact hds
  obtain ⟨t2', ht2'⟩ := updateObjectMembers_ok t2 s hnc
  refine ⟨t2', ht2', fun name => ?_⟩
  rw [updateObjectMembers_lookup t2 s t2' ht2' name]
  simp only [migrated]
  cases hs : jsLookup s name with
  | some d =>
    cases hd : d.configurable with
    | true => exact (if_pos hd).trans (H1 name d hs hd).symm
    | false => exact if_neg (by simp [hd])
  | none =>
    rcases H2 name hs with h2 | ⟨c, hc, hcf⟩
    · simp [h2]
    · simp [hc, hcf]

/-- C8: the static hot-replace callback is idempotent under repeated
application with the same new class — once it has completed, running it a
second time succeeds and leaves every static and prototype member lookup of
the (already replaced) old class unchanged. -/
theorem c8_hot_replace_idempotent (oldClass newClass r : JSClass)
    (h : hotReplaceCallbackStatic oldClass newClass = Except.ok r) :
    ∃ r', hotReplaceCallbackStatic r newClass = Except.ok r' ∧
      (∀ name, jsLookup r'.statics name = jsLookup r.statics name) ∧
      (∀ name, jsLookup r'.proto name = jsLookup r.proto name) := by
  simp only [hotReplaceCallbackStatic] at h
  cases hst : updateObjectMembers oldClass.statics (finalize newClass).statics with
  | error o => rw [hst] at h; cases h
  | ok st =>
    rw [hst] at h
    cases hpr : updateObjectMembers oldClass.proto (finalize newClass).proto with
    | error o => rw [hpr] at h; cases h
    | ok pr =>
      rw [hpr] at h
      simp only [Except.ok.injEq] at h
      subst h
      have hstm := fun name =>
        updateObjectMembers_lookup oldClass.statics (finalize newClass).statics st hst name
      have hprm := fun name =>
        updateObjectMembers_lookup oldClass.proto (finalize newClass).proto pr hpr name
      have hF : (finalize { statics := st, proto := pr } : JSClass).proto = pr :=
        finalize_proto _
      have H1s : ∀ name d,
          jsLookup (finalize newClass).statics name = some d → d.configurable = true →
          jsLookup (finalize { statics := st, proto := pr } : JSClass).statics name = some d := by
        intro name d hnd hdc
        have hstn : jsLookup st name = some d := by
          rw [hstm name]
          simp [migrated, hnd, hdc]
        rcases finalize_cases { statics := st, proto := pr } with ⟨hfc, _⟩ | ⟨hnone, hfc⟩
        · rw [hfc]
          exact hstn
        · by_cases hnf : name = "__finalized"
          · subst hnf
            rw [hstn] at hnone
            cases hnone
          · rw [hfc]
            show jsLookup (jsSet st "__finalized" finalizedMarker) name = some d
            rw [jsLookup_jsSet_ne st "__finalized" name finalizedMarker
              (fun he => hnf he.symm)]
            exact hstn
      have H2s : ∀ name, jsLookup (finalize newClass).statics name = none →
          jsLookup (finalize { statics := st, proto := pr } : JSClass).statics name = none ∨
          ∃ c, jsLookup (finalize { statics := st, proto := pr } : JSClass).statics name = some c ∧
            c.configurable = false := by
        intro name hns
        have hne : name ≠ "__finalized" := by
          intro he
          subst he
          have := finalize_finalized_isSome newClass
          rw [hns] at this
          cases this
        rw [finalize_statics_ne { statics := st, proto := pr } name hne]
        show jsLookup st name = none ∨ ∃ c, jsLookup st name = some c ∧ c.configurable = false
        rw [hstm name]
        simp only [migrated, hns]
        cases ho : jsLookup oldClass.statics name with
        | none => exact Or.inl rfl
        | some c =>
          cases hcc : c.configurable with
          | true => exact Or.inl (if_pos hcc)
          | false => exact Or.inr ⟨c, if_neg (by simp [hcc]), hcc⟩
      have H1p : ∀ name d,
          jsLookup (finalize newClass).proto name = some d → d.configurable = true →
          jsLookup (finalize { statics := st, proto := pr } : JSClass).proto name = some d := by
        intro name d hnd hdc
        rw [hF, hprm name]
        simp [migrated, hnd, hdc]
      have H2p : ∀ name, jsLookup (finalize newClass).proto name = none →
          jsLookup (finalize { statics := st, proto := pr } : JSClass).proto name = none ∨
          ∃ c, jsLookup (finalize { statics := st, proto := pr } : JSClass).proto name = some c ∧
            c.configurable = false := by
        intro name hns
        rw [hF, hprm name]
        simp only [migrated, hns]
        cases ho : jsLookup oldClass.proto name with
        | none => exact Or.inl rfl
        | some c =>
          cases hcc : c.configurable with
          | true => exact Or.inl (if_pos hcc)
          | false => exact Or.inr ⟨c, if_neg (by simp [hcc]), hcc⟩
      obtain ⟨st2, hst2, hst2eq⟩ :=
        remigrate_eq (finalize { statics := st, proto := pr } : JSClass).statics
          (finalize newClass).statics H1s H2s
      obtain ⟨pr2, hpr2, hpr2eq⟩ :=
        remigrate_eq (finalize { statics := st, proto := pr } : JSClass).proto
          (finalize newClass).proto H1p H2p
      have hfs : (jsLookup st2 "__finalized").isSome = true := by
        rw [hst2eq "__finalized"]
        exact finalize_finalized_isSome { statics := st, proto := pr }
      have hfid : finalize { statics := st2, proto := pr2 } =
          ({ statics := st2, proto := pr2 } : JSClass) := by
        unfold finalize
        rw [if_pos hfs]
      refine ⟨{ statics := st2, proto := pr2 }, ?_, ?_, ?_⟩
      · simp only [hotReplaceCallbackStatic, hst2, hpr2, hfid]
      · intro name
        exact hst2eq name
      · intro name
        exact hpr2eq name

theorem c8_witness :
    hotReplaceCallbackStatic ⟨[], []⟩ ⟨[], []⟩ =
      Except.ok ⟨[("__finalized", finalizedMarker)], []⟩ ∧
    (∃ r', hotReplaceCallbackStatic ⟨[("__finalized", finalizedMarker)], []⟩ ⟨[], []⟩ =
        Except.ok r' ∧
      (∀ name, jsLookup r'.statics name =
        jsLookup (JSClass.statics ⟨[("__finalized", finalizedMarker)], []⟩) name) ∧
      (∀ name, jsLookup r'.proto name =
        jsLookup (JSClass.proto ⟨[("__finalized", finalizedMarker)], []⟩) name)) :=
  ⟨rfl, c8_hot_replace_idempotent ⟨[], []⟩ ⟨[], []⟩
    ⟨[("__finalized", finalizedMarker)], []⟩ rfl⟩

/-! ### The render lifecycle of `LitElement` (src/lit-element.ts)

Promises are identified by numbers (`__renderComplete` holds the id of the
current completion promise, `__resolveRenderComplete` the id the installed
resolver closure resolves).  User hooks are parametrized by their results:
`_shouldRender` by a boolean verdict and `_render` by an optional template
result id (`none` models a falsy return).  Observable actions are recorded as
events; microtask scheduling is an explicit FIFO queue. -/

/-- Observable events of a lifecycle run. -/
inductive LitEvent where
  /-- the `renderComplete` getter created the completion promise `pid`. -/
  | created (pid : Nat)
  /-- the completion promise `pid` was resolved with `value`. -/
  | resolved (pid : Nat) (value : Bool)
  /-- `super._propertiesChanged(...)` (the mixin's change notification) ran. -/
  | superPropertiesChanged
  /-- the user hook `_render(props)` was invoked. -/
  | renderCalled
  /-- `_applyRender` passed `result` to the template renderer together with
  the render root and the scope name (`this.localName`, the tag name). -/
  | applied (result : Nat) (rootNode : Nat) (scopeName : String)
  /-- the `_didRender` hook ran. -/
  | didRendered
  /-- a scheduled microtask called a null resolver (`TypeError`). -/
  | taskError
  /-- `this.constructor._getUniqueStyles()` ran (hot-replace repair). -/
  | gotUniqueStyles
  /-- `this.adoptStyles()` ran (hot-replace repair). -/
  | adoptedStyles
deriving DecidableEq, Repr

/-- A queued microtask. -/
inductive Microtask where
  /-- `Promise.resolve().then(() => this.__resolveRenderComplete!(false))`
  scheduled by the `renderComplete` getter. -/
  | resolveFalse
  /-- the flush scheduled by the mixin's `_invalidateProperties`. -/
  | flush
deriving DecidableEq, Repr

/-- The private lifecycle state of one `LitElement` instance. -/
structure LitState where
  /-- `__renderComplete`: the pending completion promise, if any. -/
  renderComplete : Option Nat
  /-- `__resolveRenderComplete`: the promise the installed resolver closure
  resolves, if a resolver is installed. -/
  resolveRenderComplete : Option Nat
  /-- `__isInvalid`. -/
  isInvalid : Bool
  /-- `__isChanging`. -/
  isChanging : Bool
  /-- `_root` (`undefined` before `ready()` ran). -/
  root : Option Nat
  /-- `localName`: the element's registered tag name. -/
  localName : String
  /-- allocator for fresh promise ids. -/
  nextId : Nat
deriving DecidableEq, Repr

/-- The resolver closure installed by the `renderComplete` getter: it nulls
both `__resolveRenderComplete` and `__renderComplete`, then resolves the
promise. -/
def callResolve (s : LitState) (pid : Nat) (v : Bool) : LitState × List LitEvent :=
  ({ s with resolveRenderComplete := none, renderComplete := none },
   [LitEvent.resolved pid v])

/-- `if (this.__resolveRenderComplete) this.__resolveRenderComplete(v)`. -/
def resolveIfPending (s : LitState) (v : Bool) : LitState × List LitEvent :=
  match s.resolveRenderComplete with
  | some pid => callResolve s pid v
  | none => (s, [])

/-- `_shouldPropertiesChange` from src/lit-element.ts, parametrized by the
verdict of the user hook `_shouldRender`: when the verdict is false and a
resolver is installed, it resolves the pending completion with `false` (in
the same synchronous call), and the verdict is returned either way. -/
def shouldPropertiesChange (shouldRender : Bool) (s : LitState) :
    (LitState × List LitEvent) × Bool :=
  if shouldRender then ((s, []), true)
  else (resolveIfPending s false, false)

/-- `_propertiesChanged` from src/lit-element.ts, parametrized by the value
returned by the user hook `_render` (`none` for a falsy return): call
`super._propertiesChanged`, call `_render`, pass a truthy result to the
renderer when `_root` is defined (`_applyRender(result, _root)`, which calls
the external `render` with `this.localName` as scope), call `_didRender`, and
resolve a pending completion with `true`. -/
def propertiesChanged (renderResult : Option Nat) (s : LitState) :
    LitState × List LitEvent :=
  let applyEvents : List LitEvent :=
    match renderResult, s.root with
    | some r, some n => [LitEvent.applied r n s.localName]
    | _, _ => []
  let resolveStep := resolveIfPending s true
  (resolveStep.1,
   LitEvent.superPropertiesChanged :: LitEvent.renderCalled ::
     (applyEvents ++ (LitEvent.didRendered :: resolveStep.2)))

/-- Outcome of a (possibly throwing) flush: the resulting state, the events
emitted before returning or throwing, and whether an exception propagated. -/
inductive FlushResult where
  | ok (s : LitState) (events : List LitEvent)
  | thrown (s : LitState) (events : List LitEvent)

/-- `_flushProperties` from src/lit-element.ts, parametrized by the delegated
`super._flushProperties`: sets `__isChanging := true` and
`__isInvalid := false`, delegates, and sets `__isChanging := false` after the
delegate returns.  There is no try/finally in the source: when the delegate
throws, the exception propagates and `__isChanging` is left as the delegate
left it. -/
def flushProperties (superFlush : LitState → FlushResult) (s : LitState) :
    FlushResult :=
  match superFlush { s with isChanging := true, isInvalid := false } with
  | .ok s2 events => .ok { s2 with isChanging := false } events
  | .thrown s2 events => .thrown s2 events

/-- Model of the external mixin's `_flushProperties` body: per the source's
own documentation ("If this method returns false, _propertiesChanged will not
be called"), it evaluates `_shouldPropertiesChange` and invokes
`_propertiesChanged` only on a true verdict. -/
def mixinFlush (shouldRender : Bool) (renderResult : Option Nat) (s : LitState) :
    LitState × List LitEvent :=
  let gate := shouldPropertiesChange shouldRender s
  if gate.2 then
    let pc := propertiesChanged renderResult gate.1.1
    (pc.1, gate.1.2 ++ pc.2)
  else gate.1

/-- One scheduled flush turn: the mixin's debounced callback invoking the
element's `_flushProperties` (which cannot throw here, since `_render`'s
result is supplied). -/
def runFlush (shouldRender : Bool) (renderResult : Option Nat) (s : LitState) :
    LitState × List LitEvent :=
  match flushProperties
      (fun s1 =>
        let r := mixinFlush shouldRender renderResult s1
        FlushResult.ok r.1 r.2) s with
  | .ok s2 events => (s2, events)
  | .thrown s2 events => (s2, events)

/-- Running the microtask scheduled by the `renderComplete` getter:
`this.__resolveRenderComplete!(false)` — resolves the currently installed
resolver with `false`, or throws a `TypeError` when the field is null. -/
def runResolveFalse (s : LitState) : LitState × List LitEvent :=
  match s.resolveRenderComplete with
  | some pid => callResolve s pid false
  | none => (s, [LitEvent.taskError])

/-- An instance together with its microtask queue and event trace. -/
structure LitSys where
  st : LitState
  queue : List Microtask
  trace : List LitEvent
deriving Repr

/-- `_invalidateProperties` from src/lit-element.ts: set `__isInvalid := true`
then delegate to the mixin's `_invalidateProperties`, which debounces — it
schedules one flush microtask unless an invalidation is already outstanding
(the mixin's internal flag makes the same transitions as `__isInvalid` at
this granularity). -/
def invalidateProperties (sys : LitSys) : LitSys :=
  { st := { sys.st with isInvalid := true }
    queue := if sys.st.isInvalid then sys.queue else sys.queue ++ [Microtask.flush]
    trace := sys.trace }

/-- `_requestRender() { this._invalidateProperties(); }`. -/
def requestRender (sys : LitSys) : LitSys := invalidateProperties sys

/-- The `renderComplete` getter from src/lit-element.ts: when no completion
promise exists, create one together with its resolver (the promise executor
runs synchronously), and if `__isInvalid` is false schedule a microtask that
resolves through the resolver field with `false`; return the (existing or
new) promise. -/
def readRenderComplete (sys : LitSys) : LitSys × Nat :=
  match sys.st.renderComplete with
  | some pid => (sys, pid)
  | none =>
    let pid := sys.st.nextId
    let st := { sys.st with renderComplete := some pid,
                            resolveRenderComplete := some pid, nextId := pid + 1 }
    let queue :=
      if st.isInvalid then sys.queue else sys.queue ++ [Microtask.resolveFalse]
    (⟨st, queue, sys.trace ++ [LitEvent.created pid]⟩, pid)

/-- Commit a local turn `(state, events)` after popping the queue head. -/
def applyTurn (sys : LitSys) (rest : List Microtask) (p : LitState × List LitEvent) :
    LitSys :=
  ⟨p.1, rest, sys.trace ++ p.2⟩

/-- One step of the instance driven by its clients and the microtask queue:
a client reads `renderComplete`, a client invalidates (a property change or
`_requestRender`), or the scheduler runs the queue's head task.  A flush turn
carries that cycle's `_shouldRender` verdict and `_render` result. -/
inductive LitStep : LitSys → LitSys → Prop where
  | read (sys : LitSys) : LitStep sys (readRenderComplete sys).1
  | invalidate (sys : LitSys) : LitStep sys (invalidateProperties sys)
  | resolveTask (sys : LitSys) (rest : List Microtask)
      (h : sys.queue = Microtask.resolveFalse :: rest) :
      LitStep sys (applyTurn sys rest (runResolveFalse sys.st))
  | flushTask (sys : LitSys) (rest : List Microtask) (shouldRender : Bool)
      (renderResult : Option Nat) (h : sys.queue = Microtask.flush :: rest) :
      LitStep sys (applyTurn sys rest (runFlush shouldRender renderResult sys.st))

/-- A fresh instance: no promise, no resolver, not invalid, not flushing,
empty queue and trace. -/
def initSys (root : Option Nat) (localName : String) : LitSys :=
  ⟨⟨none, none, false, false, root, localName, 0⟩, [], []⟩

/-- The states an instance can reach from fresh. -/
def Reachable (root : Option Nat) (localName : String) (sys : LitSys) : Prop :=
  Relation.ReflTransGen LitStep (initSys root localName) sys

/-! ### Claims C2, C3, C4, C7, C9 -/

/-- A concrete fresh instance state. -/
def litS0 : LitState := ⟨none, none, false, false, none, "x-el", 0⟩

/-- A concrete instance state with pending completion promise 5 and
render root 7. -/
def litS1 : LitState := ⟨some 5, some 5, true, false, some 7, "my-widget", 6⟩

/-- A delegated flush that throws immediately. -/
def throwingFlush : LitState → FlushResult := fun s => FlushResult.thrown s []

/-- C2 is false as stated: `_flushProperties` has no try/finally, so when the
delegated mixin flush throws, the exception propagates and `__isChanging` is
left `true`. -/
theorem c2_counterexample :
    flushProperties throwingFlush litS0 =
      FlushResult.thrown { litS0 with isChanging := true, isInvalid := false } [] ∧
    ({ litS0 with isChanging := true, isInvalid := false } : LitState).isChanging
      = true :=
  ⟨rfl, rfl⟩

/-- C2 (amended): `_flushProperties` sets `__isChanging := true` and
`__isInvalid := false` before delegating; when the delegated flush returns
normally, `__isChanging` is `false` after the call; when the delegated flush
throws, the exception propagates and `__isChanging` is not restored. -/
theorem c2_flush_properties (superFlush : LitState → FlushResult) (s : LitState) :
    (∀ s2 events,
      superFlush { s with isChanging := true, isInvalid := false } =
        FlushResult.ok s2 events →
      flushProperties superFlush s =
        FlushResult.ok { s2 with isChanging := false } events) ∧
    (∀ s2 events,
      superFlush { s with isChanging := true, isInvalid := false } =
        FlushResult.thrown s2 events →
      flushProperties superFlush s = FlushResult.thrown s2 events) ∧
    (∀ s2 events,
      flushProperties superFlush s = FlushResult.ok s2 events →
      s2.isChanging = false) := by
  refine ⟨?_, ?_, ?_⟩
  · intro s2 events h
    simp [flushProperties, h]
  · intro s2 events h
    simp [flushProperties, h]
  · intro s2 events h
    unfold flushProperties at h
    cases hf : superFlush { s with isChanging := true, isInvalid := false } with
    | ok s3 ev3 =>
      rw [hf] at h
      cases h
      rfl
    | thrown s3 ev3 =>
      rw [hf] at h
      cases h

theorem c2_witness :
    flushProperties (fun st => FlushResult.ok st []) litS0 =
      FlushResult.ok litS0 [] ∧
    litS0.isChanging = false :=
  ⟨(c2_flush_properties (fun st => FlushResult.ok st []) litS0).1
    { litS0 with isChanging := true, isInvalid := false } [] rfl, rfl⟩

/-- C3: on a non-vetoed cycle in which `_render` returns a truthy result and
the render root exists, `_propertiesChanged` performs, in order: the mixin's
change notification, the `_render` call, exactly one renderer invocation with
the result, the root and the scope name derived from the element's tag name
(`localName`), the `_didRender` hook, and finally resolution of a pending
completion with `true`, discarding it (both promise fields are nulled). -/
theorem c3_properties_changed (renderResult rootNode pid : Nat) (s : LitState)
    (hroot : s.root = some rootNode)
    (hpend : s.resolveRenderComplete = some pid) :
    propertiesChanged (some renderResult) s =
      ({ s with resolveRenderComplete := none, renderComplete := none },
       [LitEvent.superPropertiesChanged, LitEvent.renderCalled,
        LitEvent.applied renderResult rootNode s.localName,
        LitEvent.didRendered, LitEvent.resolved pid true]) := by
  simp [propertiesChanged, resolveIfPending, callResolve, hroot, hpend]

theorem c3_witness :
    litS1.root = some 7 ∧ litS1.resolveRenderComplete = some 5 ∧
    propertiesChanged (some 3) litS1 =
      ({ litS1 with resolveRenderComplete := none, renderComplete := none },
       [LitEvent.superPropertiesChanged, LitEvent.renderCalled,
        LitEvent.applied 3 7 litS1.localName,
        LitEvent.didRendered, LitEvent.resolved 5 true]) :=
  ⟨rfl, rfl, c3_properties_changed 3 7 5 litS1 rfl rfl⟩

/-- C4: on a vetoed cycle (`_shouldRender` returns false), the gate
`_shouldPropertiesChange` itself resolves a pending completion with `false`
synchronously (the resolution event is emitted by the gate call, no task is
scheduled), the whole flush emits exactly that resolution, and no event of
the flush reaches the template renderer. -/
theorem c4_vetoed_cycle (renderResult : Option Nat) (pid : Nat) (s : LitState)
    (hpend : s.resolveRenderComplete = some pid) :
    shouldPropertiesChange false s =
      (({ s with resolveRenderComplete := none, renderComplete := none },
        [LitEvent.resolved pid false]), false) ∧
    runFlush false renderResult s =
      ({ s with resolveRenderComplete := none, renderComplete := none,
                isChanging := false, isInvalid := false },
       [LitEvent.resolved pid false]) ∧
    (∀ r n ln, LitEvent.applied r n ln ∉ (runFlush false renderResult s).2) := by
  have h1 : shouldPropertiesChange false s =
      (({ s with resolveRenderComplete := none, renderComplete := none },
        [LitEvent.resolved pid false]), false) := by
    simp [shouldPropertiesChange, resolveIfPending, callResolve, hpend]
  have h2 : runFlush false renderResult s =
      ({ s with resolveRenderComplete := none, renderComplete := none,
                isChanging := false, isInvalid := false },
       [LitEvent.resolved pid false]) := by
    simp [runFlush, flushProperties, mixinFlush, shouldPropertiesChange,
      resolveIfPending, callResolve, hpend]
  refine ⟨h1, h2, ?_⟩
  intro r n ln
  rw [h2]
  simp

theorem c4_witness :
    litS1.resolveRenderComplete = some 5 ∧
    (shouldPropertiesChange false litS1 =
      (({ litS1 with resolveRenderComplete := none, renderComplete := none },
        [LitEvent.resolved 5 false]), false) ∧
    runFlush false (some 3) litS1 =
      ({ litS1 with resolveRenderComplete := none, renderComplete := none,
                    isChanging := false, isInvalid := false },
       [LitEvent.resolved 5 false]) ∧
    (∀ r n ln, LitEvent.applied r n ln ∉ (runFlush false (some 3) litS1).2)) :=
  ⟨rfl, c4_vetoed_cycle (some 3) 5 litS1 rfl⟩

/-- C7: reading `renderComplete` while `__isInvalid` is false and no promise
exists creates a fresh promise, emits no resolution during the read itself
(only the creation is appended to the trace), schedules one `resolveFalse`
microtask — the next task when the queue was empty — and that task, when it
runs, resolves the new promise with `false`. -/
theorem c7_resolve_false_async (sys : LitSys)
    (hnone : sys.st.renderComplete = none)
    (hinv : sys.st.isInvalid = false) :
    (readRenderComplete sys).2 = sys.st.nextId ∧
    (readRenderComplete sys).1.trace =
      sys.trace ++ [LitEvent.created sys.st.nextId] ∧
    (readRenderComplete sys).1.queue = sys.queue ++ [Microtask.resolveFalse] ∧
    runResolveFalse (readRenderComplete sys).1.st =
      ({ (readRenderComplete sys).1.st with
          resolveRenderComplete := none, renderComplete := none },
       [LitEvent.resolved sys.st.nextId false]) ∧
    (sys.queue = [] →
      (readRenderComplete sys).1.queue = [Microtask.resolveFalse]) := by
  refine ⟨?_, ?_, ?_, ?_, ?_⟩ <;>
    simp [readRenderComplete, hnone, hinv, runResolveFalse, callResolve]

theorem c7_witness :
    (initSys (some 0) "x-a").st.renderComplete = none ∧
    (initSys (some 0) "x-a").st.isInvalid = false ∧
    ((readRenderComplete (initSys (some 0) "x-a")).2 =
        (initSys (some 0) "x-a").st.nextId ∧
      (readRenderComplete (initSys (some 0) "x-a")).1.trace =
        (initSys (some 0) "x-a").trace ++
          [LitEvent.created (initSys (some 0) "x-a").st.nextId] ∧
      (readRenderComplete (initSys (some 0) "x-a")).1.queue =
        (initSys (some 0) "x-a").queue ++ [Microtask.resolveFalse] ∧
      runResolveFalse (readRenderComplete (initSys (some 0) "x-a")).1.st =
        ({ (readRenderComplete (initSys (some 0) "x-a")).1.st with
            resolveRenderComplete := none, renderComplete := none },
         [LitEvent.resolved (initSys (some 0) "x-a").st.nextId false]) ∧
      ((initSys (some 0) "x-a").queue = [] →
        (readRenderComplete (initSys (some 0) "x-a")).1.queue =
          [Microtask.resolveFalse])) :=
  ⟨rfl, rfl, c7_resolve_false_async (initSys (some 0) "x-a") rfl rfl⟩

/-- C9: reading `renderComplete` twice before resolution returns the same
promise, and the second read changes nothing — no additional promise is
created (same state, same queue, same trace, same id allocator). -/
theorem c9_repeated_reads (sys : LitSys) :
    (readRenderComplete (readRenderComplete sys).1).2 =
      (readRenderComplete sys).2 ∧
    (readRenderComplete (readRenderComplete sys).1).1 =
      (readRenderComplete sys).1 := by
  cases h : sys.st.renderComplete with
  | some pid =>
    have h1 : readRenderComplete sys = (sys, pid) := by
      simp [readRenderComplete, h]
    rw [h1]
    simp [readRenderComplete, h]
  | none =>
    have h1 : (readRenderComplete sys).1.st.renderComplete =
        some sys.st.nextId := by
      simp [readRenderComplete, h]
    constructor <;> · simp [readRenderComplete, h]

/-! ### Claim C6: the per-instance hot-replace repair callback -/

/-- A live instance as the repair callback sees it: its lifecycle system plus
the tag names of `renderRoot`'s direct children and whether the render root
is a shadow root. -/
structure InstanceSys where
  sys : LitSys
  children : List String
  rootIsShadow : Bool

/-- Modelled from the spec: `requestUpdate` — the name the instance callback
calls — is not under src/; spec §4.2 (repairInstance, step 4) describes it as
the `requestRender()` equivalent, a forced invalidation, so it is modelled as
`_requestRender` from src/lit-element.ts (which calls
`_invalidateProperties`). -/
def requestUpdate (sys : LitSys) : LitSys := requestRender sys

/-- The style-repair prelude of the instance `hotReplaceCallback`: when
adoptable stylesheets are unsupported, remove every direct `<style>` child of
the render root (snapshot of `renderRoot.children`, removing nodes with a
truthy tag name lower-casing to "style"); recompute the class's unique-styles
cache (`_getUniqueStyles`, modelled as a trace event since it is external to
src/); and re-adopt styles when the root is a shadow root (`adoptStyles`,
likewise an event). -/
def repairPrelude (supportsAdoptingStyleSheets : Bool)
    (inst : InstanceSys) : InstanceSys :=
  let inst1 :=
    if supportsAdoptingStyleSheets then inst
    else { inst with
      children := inst.children.filter
        (fun tag => !(tag != "" && tag.toLower == "style")) }
  let inst2 := { inst1 with
    sys := { inst1.sys with trace := inst1.sys.trace ++ [LitEvent.gotUniqueStyles] } }
  if inst2.rootIsShadow then
    { inst2 with
      sys := { inst2.sys with trace := inst2.sys.trace ++ [LitEvent.adoptedStyles] } }
  else inst2

/-- The instance `hotReplaceCallback` from `src/hot-replace-callback.ts`:
the style-repair prelude followed by the forced render (`this.requestUpdate()`
as its final statement). -/
def hotReplaceCallbackInstance (supportsAdoptingStyleSheets : Bool)
    (inst : InstanceSys) : InstanceSys :=
  let mid := repairPrelude supportsAdoptingStyleSheets inst
  { mid with sys := requestUpdate mid.sys }

theorem repairPrelude_st (supports : Bool) (inst : InstanceSys) :
    (repairPrelude supports inst).sys.st = inst.sys.st := by
  unfold repairPrelude
  cases supports <;> cases h : inst.rootIsShadow <;> simp [h]

theorem repairPrelude_queue (supports : Bool) (inst : InstanceSys) :
    (repairPrelude supports inst).sys.queue = inst.sys.queue := by
  unfold repairPrelude
  cases supports <;> cases h : inst.rootIsShadow <;> simp [h]

/-- C6: the instance repair callback ends by forcing a render — its last
action is the `requestRender()`-equivalent invalidation, applied after style
steps that do not touch the lifecycle state or the queue, and it leaves
`__isInvalid` true with a flush microtask scheduled (the already-scheduled
one when an invalidation was outstanding, a newly scheduled one otherwise). -/
theorem c6_repair_forces_render (supports : Bool) (inst : InstanceSys)
    (hback : inst.sys.st.isInvalid = true → Microtask.flush ∈ inst.sys.queue) :
    (hotReplaceCallbackInstance supports inst).sys.st.isInvalid = true ∧
    Microtask.flush ∈ (hotReplaceCallbackInstance supports inst).sys.queue ∧
    (∃ mid : InstanceSys,
      hotReplaceCallbackInstance supports inst =
        { mid with sys := requestUpdate mid.sys } ∧
      mid.sys.st = inst.sys.st ∧ mid.sys.queue = inst.sys.queue) := by
  refine ⟨rfl, ?_, ⟨repairPrelude supports inst, rfl,
    repairPrelude_st supports inst, repairPrelude_queue supports inst⟩⟩
  show Microtask.flush ∈
    (invalidateProperties (repairPrelude supports inst).sys).queue
  simp only [invalidateProperties, repairPrelude_st, repairPrelude_queue]
  by_cases hi : inst.sys.st.isInvalid = true
  · rw [if_pos hi]
    exact hback hi
  · rw [if_neg hi]
    exact List.mem_append_right _ (List.mem_singleton.mpr rfl)

theorem c6_witness :
    ((initSys (some 0) "x-b").st.isInvalid = true →
      Microtask.flush ∈ (initSys (some 0) "x-b").queue) ∧
    ((hotReplaceCallbackInstance false ⟨initSys (some 0) "x-b", ["style", "div"], true⟩).sys.st.isInvalid = true ∧
      Microtask.flush ∈
        (hotReplaceCallbackInstance false ⟨initSys (some 0) "x-b", ["style", "div"], true⟩).sys.queue ∧
      (∃ mid : InstanceSys,
        hotReplaceCallbackInstance false ⟨initSys (some 0) "x-b", ["style", "div"], true⟩ =
          { mid with sys := requestUpdate mid.sys } ∧
        mid.sys.st = (initSys (some 0) "x-b").st ∧
        mid.sys.queue = (initSys (some 0) "x-b").queue)) :=
  ⟨fun h => absurd h (by decide),
   c6_repair_forces_render false ⟨initSys (some 0) "x-b", ["style", "div"], true⟩
     (fun h => absurd h (by decide))⟩

/-! ### Claim C1: trace views and predicates -/

/-- The promise ids resolved in a trace, in order. -/
def resolvedIds (tr : List LitEvent) : List Nat :=
  tr.filterMap fun e =>
    match e with
    | LitEvent.resolved pid _ => some pid
    | _ => none

/-- The promise ids created in a trace, in order. -/
def createdIds (tr : List LitEvent) : List Nat :=
  tr.filterMap fun e =>
    match e with
    | LitEvent.created pid => some pid
    | _ => none

theorem resolvedIds_append (a b : List LitEvent) :
    resolvedIds (a ++ b) = resolvedIds a ++ resolvedIds b :=
  List.filterMap_append a b _

theorem createdIds_append (a b : List LitEvent) :
    createdIds (a ++ b) = createdIds a ++ createdIds b :=
  List.filterMap_append a b _

theorem mem_resolvedIds_of_mem (tr : List LitEvent) (pid : Nat) (v : Bool)
    (h : LitEvent.resolved pid v ∈ tr) : pid ∈ resolvedIds tr := by
  simp only [resolvedIds, List.mem_filterMap]
  exact ⟨LitEvent.resolved pid v, h, rfl⟩

theorem mem_createdIds_of_mem (tr : List LitEvent) (pid : Nat)
    (h : LitEvent.created pid ∈ tr) : pid ∈ createdIds tr := by
  simp only [createdIds, List.mem_filterMap]
  exact ⟨LitEvent.created pid, h, rfl⟩

theorem exists_of_mem_resolvedIds (tr : List LitEvent) (pid : Nat)
    (h : pid ∈ resolvedIds tr) : ∃ v, LitEvent.resolved pid v ∈ tr := by
  simp only [resolvedIds, List.mem_filterMap] at h
  obtain ⟨e, he, hm⟩ := h
  cases e with
  | resolved p v =>
    simp only at hm
    injection hm with h'
    exact ⟨v, h' ▸ he⟩
  | created p => exact Option.noConfusion hm
  | superPropertiesChanged => exact Option.noConfusion hm
  | renderCalled => exact Option.noConfusion hm
  | applied r n ln => exact Option.noConfusion hm
  | didRendered => exact Option.noConfusion hm
  | taskError => exact Option.noConfusion hm
  | gotUniqueStyles => exact Option.noConfusion hm
  | adoptedStyles => exact Option.noConfusion hm

theorem exists_of_mem_createdIds (tr : List LitEvent) (pid : Nat)
    (h : pid ∈ createdIds tr) : LitEvent.created pid ∈ tr := by
  simp only [createdIds, List.mem_filterMap] at h
  obtain ⟨e, he, hm⟩ := h
  cases e with
  | created p =>
    simp only at hm
    injection hm with h'
    exact h' ▸ he
  | resolved p v => exact Option.noConfusion hm
  | superPropertiesChanged => exact Option.noConfusion hm
  | renderCalled => exact Option.noConfusion hm
  | applied r n ln => exact Option.noConfusion hm
  | didRendered => exact Option.noConfusion hm
  | taskError => exact Option.noConfusion hm
  | gotUniqueStyles => exact Option.noConfusion hm
  | adoptedStyles => exact Option.noConfusion hm

/-- Every resolution with `true` immediately follows a `_didRender` event: a
render occurred directly before the completion resolved true. -/
def TrueAfterRender (tr : List LitEvent) : Prop :=
  ∀ i pid, tr.get? i = some (LitEvent.resolved pid true) →
    ∃ j, i = j + 1 ∧ tr.get? j = some LitEvent.didRendered

/-- Between a signal's creation and its resolution with `false`, no render
(`_didRender`) occurred. -/
def FalseNoRender (tr : List LitEvent) : Prop :=
  ∀ pid i j k, tr.get? i = some (LitEvent.created pid) →
    tr.get? j = some (LitEvent.resolved pid false) →
    i < k → k < j → tr.get? k ≠ some LitEvent.didRendered

theorem get?_lt_length {α : Type} (l : List α) (n : Nat) (a : α)
    (h : l.get? n = some a) : n < l.length := by
  by_contra hn
  rw [List.get?_eq_none.mpr (Nat.le_of_not_lt hn)] at h
  cases h

theorem trueAfterRender_append (a b : List LitEvent)
    (ha : TrueAfterRender a) (hb : TrueAfterRender b)
    (hb0 : ∀ pid, b.get? 0 ≠ some (LitEvent.resolved pid true)) :
    TrueAfterRender (a ++ b) := by
  intro i pid h
  by_cases hi : i < a.length
  · rw [List.get?_append hi] at h
    obtain ⟨j, hij, hj⟩ := ha i pid h
    refine ⟨j, hij, ?_⟩
    rw [List.get?_append (by omega)]
    exact hj
  · push_neg at hi
    rw [List.get?_append_right hi] at h
    obtain ⟨j', hij', hj'⟩ := hb (i - a.length) pid h
    have hne0 : i - a.length ≠ 0 := by
      intro h0
      rw [h0] at h
      exact hb0 pid h
    refine ⟨a.length + j', by omega, ?_⟩
    rw [List.get?_append_right (by omega)]
    have he : a.length + j' - a.length = j' := by omega
    rw [he]
    exact hj'

theorem trueAfterRender_of_no_true (b : List LitEvent)
    (h : ∀ pid, LitEvent.resolved pid true ∉ b) : TrueAfterRender b :=
  fun i pid hi => absurd (List.get?_mem hi) (h pid)

theorem falseNoRender_append_clean (a b : List LitEvent)
    (ha : FalseNoRender a)
    (hb : ∀ pid, LitEvent.resolved pid false ∉ b) :
    FalseNoRender (a ++ b) := by
  intro pid i j k hi hj hik hkj
  have hj' : j < a.length := by
    by_contra hjn
    push_neg at hjn
    rw [List.get?_append_right hjn] at hj
    exact hb pid (List.get?_mem hj)
  have hk : k < a.length := lt_trans hkj hj'
  have hi' : i < a.length := lt_trans hik hk
  rw [List.get?_append hk]
  rw [List.get?_append hi'] at hi
  rw [List.get?_append hj'] at hj
  exact ha pid i j k hi hj hik hkj

theorem falseNoRender_append_resolved (a : List LitEvent) (pid : Nat)
    (ha : FalseNoRender a)
    (hpnr : ∀ i, a.get? i = some (LitEvent.created pid) →
      ∀ k, i < k → a.get? k ≠ some LitEvent.didRendered) :
    FalseNoRender (a ++ [LitEvent.resolved pid false]) := by
  intro pid' i j k hi hj hik hkj
  by_cases hj' : j < a.length
  · have hk : k < a.length := lt_trans hkj hj'
    have hi' : i < a.length := lt_trans hik hk
    rw [List.get?_append hk]
    rw [List.get?_append hi'] at hi
    rw [List.get?_append hj'] at hj
    exact ha pid' i j k hi hj hik hkj
  · push_neg at hj'
    rw [List.get?_append_right hj'] at hj
    have hpid : pid' = pid := by
      rcases hm : j - a.length with _ | n
      · rw [hm] at hj
        simp only [List.get?] at hj
        injection hj with h'
        cases h'
        rfl
      · rw [hm] at hj
        simp [List.get?] at hj
    subst hpid
    have hjlen : j ≤ a.length + 0 := by
      have := get?_lt_length _ _ _ hj
      simp at this
      omega
    have hk : k < a.length := by omega
    have hi2 : i < a.length := lt_trans hik hk
    rw [List.get?_append hk]
    rw [List.get?_append hi2] at hi
    exact hpnr i hi k hik

/-! ### Explicit forms of the lifecycle turns -/

/-- The renderer-invocation events of one `_propertiesChanged` run. -/
def applyEvents (renderResult rootNode : Option Nat) (scope : String) :
    List LitEvent :=
  match renderResult, rootNode with
  | some r, some n => [LitEvent.applied r n scope]
  | _, _ => []

theorem applyEvents_cases (rr rootNode : Option Nat) (scope : String) :
    applyEvents rr rootNode scope = [] ∨
    ∃ r n, applyEvents rr rootNode scope = [LitEvent.applied r n scope] := by
  cases rr with
  | none => exact Or.inl rfl
  | some r =>
    cases rootNode with
    | none => exact Or.inl rfl
    | some n => exact Or.inr ⟨r, n, rfl⟩

theorem readRenderComplete_some (sys : LitSys) (pid : Nat)
    (h : sys.st.renderComplete = some pid) :
    (readRenderComplete sys).1 = sys := by
  simp [readRenderComplete, h]

theorem readRenderComplete_none (sys : LitSys)
    (h : sys.st.renderComplete = none) :
    (readRenderComplete sys).1 =
      ⟨{ sys.st with renderComplete := some sys.st.nextId,
                     resolveRenderComplete := some sys.st.nextId,
                     nextId := sys.st.nextId + 1 },
       if sys.st.isInvalid then sys.queue
       else sys.queue ++ [Microtask.resolveFalse],
       sys.trace ++ [LitEvent.created sys.st.nextId]⟩ := by
  simp [readRenderComplete, h]

theorem runFlush_false_pending (rr : Option Nat) (pid : Nat) (s : LitState)
    (h : s.resolveRenderComplete = some pid) :
    runFlush false rr s =
      ({ s with resolveRenderComplete := none, renderComplete := none,
                isChanging := false, isInvalid := false },
       [LitEvent.resolved pid false]) := by
  simp [runFlush, flushProperties, mixinFlush, shouldPropertiesChange,
    resolveIfPending, callResolve, h]

theorem runFlush_false_none (rr : Option Nat) (s : LitState)
    (h : s.resolveRenderComplete = none) :
    runFlush false rr s = ({ s with isChanging := false, isInvalid := false }, []) := by
  simp [runFlush, flushProperties, mixinFlush, shouldPropertiesChange,
    resolveIfPending, h]

theorem runFlush_true_pending (rr : Option Nat) (pid : Nat) (s : LitState)
    (h : s.resolveRenderComplete = some pid) :
    runFlush true rr s =
      ({ s with resolveRenderComplete := none, renderComplete := none,
                isChanging := false, isInvalid := false },
       LitEvent.superPropertiesChanged :: LitEvent.renderCalled ::
         (applyEvents rr s.root s.localName ++
           [LitEvent.didRendered, LitEvent.resolved pid true])) := by
  simp only [runFlush, flushProperties, mixinFlush, shouldPropertiesChange,
    propertiesChanged, resolveIfPending, callResolve, applyEvents, h, if_true]
  cases rr with
  | none => simp
  | some r =>
    cases hr : s.root with
    | none => simp
    | some n => simp

theorem runFlush_true_none (rr : Option Nat) (s : LitState)
    (h : s.resolveRenderComplete = none) :
    runFlush true rr s =
      ({ s with isChanging := false, isInvalid := false },
       LitEvent.superPropertiesChanged :: LitEvent.renderCalled ::
         (applyEvents rr s.root s.localName ++ [LitEvent.didRendered])) := by
  simp only [runFlush, flushProperties, mixinFlush, shouldPropertiesChange,
    propertiesChanged, resolveIfPending, applyEvents, h, if_true]
  cases rr with
  | none => simp
  | some r =>
    cases hr : s.root with
    | none => simp
    | some n => simp

theorem tar_flush_block (ae : List LitEvent) (pid : Nat)
    (hae : ae = [] ∨ ∃ r n ln, ae = [LitEvent.applied r n ln]) :
    TrueAfterRender (LitEvent.superPropertiesChanged :: LitEvent.renderCalled ::
      (ae ++ [LitEvent.didRendered, LitEvent.resolved pid true])) := by
  rcases hae with rfl | ⟨r, n, ln, rfl⟩
  · intro i pid' h
    match i with
    | 0 => simp [List.get?] at h
    | 1 => simp [List.get?] at h
    | 2 => simp [List.get?] at h
    | 3 => exact ⟨2, rfl, rfl⟩
    | (m+4) => simp [List.get?] at h
  · intro i pid' h
    match i with
    | 0 => simp [List.get?] at h
    | 1 => simp [List.get?] at h
    | 2 => simp [List.get?] at h
    | 3 => simp [List.get?] at h
    | 4 => exact ⟨3, rfl, rfl⟩
    | (m+5) => simp [List.get?] at h

/-! ### The per-instance invariant behind claim C1 -/

/-- The inductive invariant of a lifecycle system: the two promise fields
agree; a pending promise is created, unresolved and allocated; created and
resolved ids are allocated; no id resolves twice; every created id is
resolved or still pending; an outstanding invalidation and a pending promise
are each backed by a queued task; resolutions with `true` directly follow a
render; and no render separates a creation from its `false` resolution. -/
structure LitInv (sys : LitSys) : Prop where
  aligned : sys.st.resolveRenderComplete = sys.st.renderComplete
  pendingNotResolved : ∀ pid, sys.st.renderComplete = some pid →
    pid ∉ resolvedIds sys.trace
  pendingCreatedIdx : ∀ pid, sys.st.renderComplete = some pid →
    pid ∈ createdIds sys.trace
  pendingLt : ∀ pid, sys.st.renderComplete = some pid → pid < sys.st.nextId
  createdLt : ∀ pid, pid ∈ createdIds sys.trace → pid < sys.st.nextId
  resolvedLt : ∀ pid, pid ∈ resolvedIds sys.trace → pid < sys.st.nextId
  resolvedNodup : (resolvedIds sys.trace).Nodup
  settled : ∀ pid, pid ∈ createdIds sys.trace →
    pid ∈ resolvedIds sys.trace ∨ sys.st.renderComplete = some pid
  invalidBacked : sys.st.isInvalid = true → Microtask.flush ∈ sys.queue
  pendingBacked : ∀ pid, sys.st.renderComplete = some pid → sys.queue ≠ []
  trueAfter : TrueAfterRender sys.trace
  pendingNoRender : ∀ pid i, sys.st.renderComplete = some pid →
    sys.trace.get? i = some (LitEvent.created pid) →
    ∀ k, i < k → sys.trace.get? k ≠ some LitEvent.didRendered
  falseNoRender : FalseNoRender sys.trace

theorem litInv_turn_resolved (sys : LitSys) (rest : List Microtask)
    (st' : LitState) (evs : List LitEvent) (pid : Nat)
    (hinv : LitInv sys)
    (hrc : sys.st.renderComplete = some pid)
    (h1 : st'.renderComplete = none)
    (h2 : st'.resolveRenderComplete = none)
    (h3 : st'.nextId = sys.st.nextId)
    (hres : resolvedIds evs = [pid])
    (hcre : createdIds evs = [])
    (hib : st'.isInvalid = true → Microtask.flush ∈ rest)
    (htar : TrueAfterRender (sys.trace ++ evs))
    (hfnr : FalseNoRender (sys.trace ++ evs)) :
    LitInv ⟨st', rest, sys.trace ++ evs⟩ := by
  have hresT : resolvedIds (sys.trace ++ evs) = resolvedIds sys.trace ++ [pid] := by
    rw [resolvedIds_append, hres]
  have hcreT : createdIds (sys.trace ++ evs) = createdIds sys.trace := by
    rw [createdIds_append, hcre, List.append_nil]
  exact {
    aligned := by rw [h2, h1]
    pendingNotResolved := fun pid' hp => by
      rw [h1] at hp; exact Option.noConfusion hp
    pendingCreatedIdx := fun pid' hp => by
      rw [h1] at hp; exact Option.noConfusion hp
    pendingLt := fun pid' hp => by
      rw [h1] at hp; exact Option.noConfusion hp
    createdLt := fun pid' hm => by
      rw [hcreT] at hm
      rw [h3]
      exact hinv.createdLt pid' hm
    resolvedLt := fun pid' hm => by
      rw [hresT] at hm
      rw [h3]
      rcases List.mem_append.mp hm with hold | hnew
      · exact hinv.resolvedLt pid' hold
      · have : pid' = pid := by simpa using hnew
        subst this
        exact hinv.pendingLt pid' hrc
    resolvedNodup := by
      rw [hresT, List.nodup_append]
      refine ⟨hinv.resolvedNodup, List.nodup_singleton pid, ?_⟩
      intro q hq1 hq2
      have : q = pid := by simpa using hq2
      subst this
      exact hinv.pendingNotResolved q hrc hq1
    settled := fun q hq => by
      rw [hcreT] at hq
      rw [hresT]
      rcases hinv.settled q hq with hl | hr
      · exact Or.inl (List.mem_append_left _ hl)
      · have : q = pid := by
          rw [hrc] at hr
          injection hr with he
          exact he.symm
        subst this
        exact Or.inl (List.mem_append_right _ (by simp))
    invalidBacked := hib
    pendingBacked := fun pid' hp => by
      rw [h1] at hp; exact Option.noConfusion hp
    trueAfter := htar
    pendingNoRender := fun pid' i hp => by
      rw [h1] at hp; exact Option.noConfusion hp
    falseNoRender := hfnr }

theorem litInv_turn_plain (sys : LitSys) (rest : List Microtask)
    (st' : LitState) (evs : List LitEvent)
    (hinv : LitInv sys)
    (hrc : sys.st.renderComplete = none)
    (h1 : st'.renderComplete = none)
    (h2 : st'.resolveRenderComplete = none)
    (h3 : st'.nextId = sys.st.nextId)
    (hres : resolvedIds evs = [])
    (hcre : createdIds evs = [])
    (hib : st'.isInvalid = true → Microtask.flush ∈ rest)
    (htar : TrueAfterRender (sys.trace ++ evs))
    (hfnr : FalseNoRender (sys.trace ++ evs)) :
    LitInv ⟨st', rest, sys.trace ++ evs⟩ := by
  have hresT : resolvedIds (sys.trace ++ evs) = resolvedIds sys.trace := by
    rw [resolvedIds_append, hres, List.append_nil]
  have hcreT : createdIds (sys.trace ++ evs) = createdIds sys.trace := by
    rw [createdIds_append, hcre, List.append_nil]
  exact {
    aligned := by rw [h2, h1]
    pendingNotResolved := fun pid' hp => by
      rw [h1] at hp; exact Option.noConfusion hp
    pendingCreatedIdx := fun pid' hp => by
      rw [h1] at hp; exact Option.noConfusion hp
    pendingLt := fun pid' hp => by
      rw [h1] at hp; exact Option.noConfusion hp
    createdLt := fun pid' hm => by
      rw [hcreT] at hm
      rw [h3]
      exact hinv.createdLt pid' hm
    resolvedLt := fun pid' hm => by
      rw [hresT] at hm
      rw [h3]
      exact hinv.resolvedLt pid' hm
    resolvedNodup := by
      rw [hresT]
      exact hinv.resolvedNodup
    settled := fun q hq => by
      rw [hcreT] at hq
      rw [hresT]
      rcases hinv.settled q hq with hl | hr
      · exact Or.inl hl
      · rw [hrc] at hr
        exact Option.noConfusion hr
    invalidBacked := hib
    pendingBacked := fun pid' hp => by
      rw [h1] at hp; exact Option.noConfusion hp
    trueAfter := htar
    pendingNoRender := fun pid' i hp => by
      rw [h1] at hp; exact Option.noConfusion hp
    falseNoRender := hfnr }

theorem litInv_read (sys : LitSys) (h : LitInv sys) :
    LitInv (readRenderComplete sys).1 := by
  cases hp : sys.st.renderComplete with
  | some pid =>
    rw [readRenderComplete_some sys pid hp]
    exact h
  | none =>
    rw [readRenderComplete_none sys hp]
    have hres : resolvedIds (sys.trace ++ [LitEvent.created sys.st.nextId]) =
        resolvedIds sys.trace := by
      rw [resolvedIds_append]
      simp [resolvedIds]
    have hcre : createdIds (sys.trace ++ [LitEvent.created sys.st.nextId]) =
        createdIds sys.trace ++ [sys.st.nextId] := by
      rw [createdIds_append]
      simp [createdIds]
    exact {
      aligned := rfl
      pendingNotResolved := fun pid hp' => by
        have hpe : pid = sys.st.nextId := by injection hp' with he; exact he.symm
        subst hpe
        rw [hres]
        intro hmem
        exact absurd (h.resolvedLt _ hmem) (lt_irrefl _)
      pendingCreatedIdx := fun pid hp' => by
        have hpe : pid = sys.st.nextId := by injection hp' with he; exact he.symm
        subst hpe
        rw [hcre]
        exact List.mem_append_right _ (by simp)
      pendingLt := fun pid hp' => by
        have hpe : pid = sys.st.nextId := by injection hp' with he; exact he.symm
        subst hpe
        exact Nat.lt_succ_self _
      createdLt := fun pid hm => by
        rw [hcre] at hm
        rcases List.mem_append.mp hm with hold | hnew
        · exact Nat.lt_succ_of_lt (h.createdLt pid hold)
        · have hpe : pid = sys.st.nextId := by simpa using hnew
          subst hpe
          exact Nat.lt_succ_self _
      resolvedLt := fun pid hm => by
        rw [hres] at hm
        exact Nat.lt_succ_of_lt (h.resolvedLt pid hm)
      resolvedNodup := by rw [hres]; exact h.resolvedNodup
      settled := fun q hq => by
        rw [hcre] at hq
        rw [hres]
        rcases List.mem_append.mp hq with hold | hnew
        · rcases h.settled q hold with hl | hr
          · exact Or.inl hl
          · rw [hp] at hr
            exact Option.noConfusion hr
        · have hpe : q = sys.st.nextId := by simpa using hnew
          subst hpe
          exact Or.inr rfl
      invalidBacked := fun hi => by
        rw [if_pos hi]
        exact h.invalidBacked hi
      pendingBacked := fun pid hp' => by
        by_cases hi : sys.st.isInvalid = true
        · rw [if_pos hi]
          exact List.ne_nil_of_mem (h.invalidBacked hi)
        · rw [if_neg hi]
          simp
      trueAfter := trueAfterRender_append _ _ h.trueAfter
        (trueAfterRender_of_no_true _ (by intro pid; simp))
        (by intro pid hc; simp [List.get?] at hc)
      pendingNoRender := fun pid i hp' hci k hik => by
        have hpe : pid = sys.st.nextId := by injection hp' with he; exact he.symm
        subst hpe
        have hilen : i < sys.trace.length + 1 := by
          have := get?_lt_length _ _ _ hci
          simpa using this
        by_cases hil : i < sys.trace.length
        · rw [List.get?_append hil] at hci
          have hmem : sys.st.nextId ∈ createdIds sys.trace :=
            mem_createdIds_of_mem _ _ (List.get?_mem hci)
          exact absurd (h.createdLt _ hmem) (lt_irrefl _)
        · intro hk
          have hklen : k < sys.trace.length + 1 := by
            have := get?_lt_length _ _ _ hk
            simpa using this
          omega
      falseNoRender := falseNoRender_append_clean _ _ h.falseNoRender
        (by intro pid; simp) }

theorem litInv_invalidate (sys : LitSys) (h : LitInv sys) :
    LitInv (invalidateProperties sys) := by
  exact {
    aligned := h.aligned
    pendingNotResolved := h.pendingNotResolved
    pendingCreatedIdx := h.pendingCreatedIdx
    pendingLt := h.pendingLt
    createdLt := h.createdLt
    resolvedLt := h.resolvedLt
    resolvedNodup := h.resolvedNodup
    settled := h.settled
    invalidBacked := fun _ => by
      simp only [invalidateProperties]
      by_cases hi : sys.st.isInvalid = true
      · rw [if_pos hi]
        exact h.invalidBacked hi
      · rw [if_neg hi]
        exact List.mem_append_right _ (by simp)
    pendingBacked := fun pid hp => by
      simp only [invalidateProperties]
      by_cases hi : sys.st.isInvalid = true
      · rw [if_pos hi]
        exact h.pendingBacked pid hp
      · rw [if_neg hi]
        simp
    trueAfter := h.trueAfter
    pendingNoRender := h.pendingNoRender
    falseNoRender := h.falseNoRender }

theorem litInv_resolveTask (sys : LitSys) (rest : List Microtask)
    (h : LitInv sys) (hq : sys.queue = Microtask.resolveFalse :: rest) :
    LitInv (applyTurn sys rest (runResolveFalse sys.st)) := by
  have hibq : sys.st.isInvalid = true → Microtask.flush ∈ rest := by
    intro hi
    have hm := h.invalidBacked hi
    rw [hq] at hm
    rcases List.mem_cons.mp hm with he | hm'
    · exact absurd he (by simp)
    · exact hm'
  cases hr : sys.st.resolveRenderComplete with
  | some pid =>
    have hrc : sys.st.renderComplete = some pid := by rw [← h.aligned, hr]
    have hrun : runResolveFalse sys.st =
        ({ sys.st with resolveRenderComplete := none, renderComplete := none },
         [LitEvent.resolved pid false]) := by
      simp [runResolveFalse, callResolve, hr]
    rw [hrun]
    refine litInv_turn_resolved sys rest _ _ pid h hrc rfl rfl rfl ?_ ?_ hibq ?_ ?_
    · simp [resolvedIds]
    · simp [createdIds]
    · exact trueAfterRender_append _ _ h.trueAfter
        (trueAfterRender_of_no_true _ (by intro pid'; simp))
        (by intro pid' hc; simp [List.get?] at hc)
    · exact falseNoRender_append_resolved _ pid h.falseNoRender
        (fun i hci k hik => h.pendingNoRender pid i hrc hci k hik)
  | none =>
    have hrc : sys.st.renderComplete = none := by rw [← h.aligned, hr]
    have hrun : runResolveFalse sys.st = (sys.st, [LitEvent.taskError]) := by
      simp [runResolveFalse, hr]
    rw [hrun]
    refine litInv_turn_plain sys rest _ _ h hrc hrc hr rfl ?_ ?_ hibq ?_ ?_
    · simp [resolvedIds]
    · simp [createdIds]
    · exact trueAfterRender_append _ _ h.trueAfter
        (trueAfterRender_of_no_true _ (by intro pid'; simp))
        (by intro pid' hc; simp [List.get?] at hc)
    · exact falseNoRender_append_clean _ _ h.falseNoRender (by intro pid'; simp)

theorem litInv_flushTask (sys : LitSys) (rest : List Microtask)
    (sr : Bool) (rr : Option Nat) (h : LitInv sys)
    (hq : sys.queue = Microtask.flush :: rest) :
    LitInv (applyTurn sys rest (runFlush sr rr sys.st)) := by
  cases hr : sys.st.resolveRenderComplete with
  | some pid =>
    have hrc : sys.st.renderComplete = some pid := by rw [← h.aligned, hr]
    cases sr with
    | false =>
      rw [runFlush_false_pending rr pid sys.st hr]
      refine litInv_turn_resolved sys rest _ _ pid h hrc rfl rfl rfl ?_ ?_
        (fun hi => Bool.noConfusion hi) ?_ ?_
      · simp [resolvedIds]
      · simp [createdIds]
      · exact trueAfterRender_append _ _ h.trueAfter
          (trueAfterRender_of_no_true _ (by intro pid'; simp))
          (by intro pid' hc; simp [List.get?] at hc)
      · exact falseNoRender_append_resolved _ pid h.falseNoRender
          (fun i hci k hik => h.pendingNoRender pid i hrc hci k hik)
    | true =>
      rw [runFlush_true_pending rr pid sys.st hr]
      refine litInv_turn_resolved sys rest _ _ pid h hrc rfl rfl rfl ?_ ?_
        (fun hi => Bool.noConfusion hi) ?_ ?_
      · rcases applyEvents_cases rr sys.st.root sys.st.localName with hae | ⟨r, n, hae⟩ <;>
          rw [hae] <;> simp [resolvedIds]
      · rcases applyEvents_cases rr sys.st.root sys.st.localName with hae | ⟨r, n, hae⟩ <;>
          rw [hae] <;> simp [createdIds]
      · refine trueAfterRender_append _ _ h.trueAfter
          (tar_flush_block _ pid ?_) (by intro pid' hc; simp [List.get?] at hc)
        rcases applyEvents_cases rr sys.st.root sys.st.localName with hae | ⟨r, n, hae⟩
        · exact Or.inl hae
        · exact Or.inr ⟨r, n, _, hae⟩
      · refine falseNoRender_append_clean _ _ h.falseNoRender ?_
        intro pid'
        rcases applyEvents_cases rr sys.st.root sys.st.localName with hae | ⟨r, n, hae⟩ <;>
          rw [hae] <;> simp
  | none =>
    have hrc : sys.st.renderComplete = none := by rw [← h.aligned, hr]
    cases sr with
    | false =>
      rw [runFlush_false_none rr sys.st hr]
      refine litInv_turn_plain sys rest _ _ h hrc hrc hr rfl rfl rfl
        (fun hi => Bool.noConfusion hi) ?_ ?_
      · exact trueAfterRender_append _ _ h.trueAfter
          (trueAfterRender_of_no_true _ (by intro pid'; simp))
          (by intro pid' hc; simp [List.get?] at hc)
      · exact falseNoRender_append_clean _ _ h.falseNoRender (by intro pid'; simp)
    | true =>
      rw [runFlush_true_none rr sys.st hr]
      refine litInv_turn_plain sys rest _ _ h hrc hrc hr rfl ?_ ?_
        (fun hi => Bool.noConfusion hi) ?_ ?_
      · rcases applyEvents_cases rr sys.st.root sys.st.localName with hae | ⟨r, n, hae⟩ <;>
          rw [hae] <;> simp [resolvedIds]
      · rcases applyEvents_cases rr sys.st.root sys.st.localName with hae | ⟨r, n, hae⟩ <;>
          rw [hae] <;> simp [createdIds]
      · refine trueAfterRender_append _ _ h.trueAfter
          (trueAfterRender_of_no_true _ ?_) (by intro pid' hc; simp [List.get?] at hc)
        intro pid'
        rcases applyEvents_cases rr sys.st.root sys.st.localName with hae | ⟨r, n, hae⟩ <;>
          rw [hae] <;> simp
      · refine falseNoRender_append_clean _ _ h.falseNoRender ?_
        intro pid'
        rcases applyEvents_cases rr sys.st.root sys.st.localName with hae | ⟨r, n, hae⟩ <;>
          rw [hae] <;> simp

theorem litInv_step (a b : LitSys) (h : LitInv a) (hs : LitStep a b) : LitInv b := by
  cases hs with
  | read => exact litInv_read a h
  | invalidate => exact litInv_invalidate a h
  | resolveTask rest hq => exact litInv_resolveTask a rest h hq
  | flushTask rest sr rr hq => exact litInv_flushTask a rest sr rr h hq

theorem litInv_init (root : Option Nat) (localName : String) :
    LitInv (initSys root localName) := by
  exact {
    aligned := rfl
    pendingNotResolved := fun pid hp => Option.noConfusion hp
    pendingCreatedIdx := fun pid hp => Option.noConfusion hp
    pendingLt := fun pid hp => Option.noConfusion hp
    createdLt := fun pid hm => by simp [createdIds, initSys] at hm
    resolvedLt := fun pid hm => by simp [resolvedIds, initSys] at hm
    resolvedNodup := List.nodup_nil
    settled := fun pid hm => by simp [createdIds, initSys] at hm
    invalidBacked := fun hi => Bool.noConfusion hi
    pendingBacked := fun pid hp => Option.noConfusion hp
    trueAfter := fun i pid hp => by simp [initSys, List.get?] at hp
    pendingNoRender := fun pid i hp => Option.noConfusion hp
    falseNoRender := fun pid i j k hi => by simp [initSys, List.get?] at hi }

theorem litInv_reachable (root : Option Nat) (localName : String) (sys : LitSys)
    (h : Reachable root localName sys) : LitInv sys := by
  induction h with
  | refl => exact litInv_init root localName
  | tail hsteps hstep ih => exact litInv_step _ _ ih hstep

/-- C1: in every reachable state of an instance, (a) no completion promise
resolves more than once; (b) when the microtask queue is empty every created
promise has been resolved (so each signal resolves exactly once); (c) every
resolution with `true` directly follows a render (`_didRender`); and (d)
between a signal's creation and its resolution with `false` no render
occurred — resolution is `true` exactly when a render happened before it. -/
theorem c1_completion_signal_exactly_once (root : Option Nat)
    (localName : String) (sys : LitSys)
    (h : Reachable root localName sys) :
    (resolvedIds sys.trace).Nodup ∧
    (sys.queue = [] → ∀ pid, pid ∈ createdIds sys.trace →
      pid ∈ resolvedIds sys.trace) ∧
    TrueAfterRender sys.trace ∧
    FalseNoRender sys.trace := by
  have hinv := litInv_reachable root localName sys h
  refine ⟨hinv.resolvedNodup, ?_, hinv.trueAfter, hinv.falseNoRender⟩
  intro hq pid hc
  rcases hinv.settled pid hc with hl | hr
  · exact hl
  · exact absurd hq (hinv.pendingBacked pid hr)

/-- A state reached by reading `renderComplete` on a fresh instance and then
running the scheduled microtask. -/
def c1WitnessSys : LitSys :=
  applyTurn (readRenderComplete (initSys (some 0) "x-a")).1 []
    (runResolveFalse (readRenderComplete (initSys (some 0) "x-a")).1.st)

theorem c1_witness :
    (resolvedIds c1WitnessSys.trace).Nodup ∧
    (c1WitnessSys.queue = [] → ∀ pid, pid ∈ createdIds c1WitnessSys.trace →
      pid ∈ resolvedIds c1WitnessSys.trace) ∧
    TrueAfterRender c1WitnessSys.trace ∧
    FalseNoRender c1WitnessSys.trace :=
  c1_completion_signal_exactly_once (some 0) "x-a" c1WitnessSys
    (Relation.ReflTransGen.tail
      (Relation.ReflTransGen.tail Relation.ReflTransGen.refl
        (LitStep.read (initSys (some 0) "x-a")))
      (LitStep.resolveTask (readRenderComplete (initSys (some 0) "x-a")).1 [] rfl))
